import Mathlib

/-!
# Verification of the job-listing aggregation pipeline

A shallow embedding of `src/extractors/jobspy/scrape_jobs.py` (the
aggregation core: configuration resolution, location normalization, site
dispatch, aggregation, progress emission, output writing), together with
proofs of the specification's claims about it.

Strings are modelled as Lean `String`/`List Char`.  Python's `str.lower`
is modelled by `Char.toLower` (ASCII case mapping; every string appearing
in the program's tables and in the claims is unchanged by the difference
on non-ASCII upper-case letters), and Python's whitespace is modelled by
`Char.isWhitespace` (space, tab, CR, LF).
-/

namespace JobOps

/-- Whitespace predicate used by Python's `str.strip` / `str.split()`. -/
def ws (c : Char) : Bool := c.isWhitespace

/-- `str.strip()` on the left: drop leading whitespace. -/
def trimLeft (l : List Char) : List Char := l.dropWhile ws

/-- `str.strip()` on the right: drop trailing whitespace. -/
def trimRight (l : List Char) : List Char := (l.reverse.dropWhile ws).reverse

/-- Python `str.strip()` on a character list. -/
def stripList (l : List Char) : List Char := trimRight (trimLeft l)

/-- Python `str.strip()`. -/
def pyStrip (s : String) : String := ⟨stripList s.data⟩

/-- Worker for `pySplit`: `acc` holds the reversed current word. -/
def pySplitAux : List Char → List Char → List (List Char)
  | [], acc => if acc = [] then [] else [acc.reverse]
  | c :: cs, acc =>
    if ws c then
      if acc = [] then pySplitAux cs [] else acc.reverse :: pySplitAux cs []
    else pySplitAux cs (c :: acc)

/-- Python `str.split()` (no separator): the maximal whitespace-free runs,
in order, empty runs discarded. -/
def pySplit (l : List Char) : List (List Char) := pySplitAux l []

/-- `" ".join(words)`: interleave a single space between the words. -/
def joinSp : List (List Char) → List Char
  | [] => []
  | [w] => w
  | w :: rest => w ++ ' ' :: joinSp rest

/-- `" ".join(value.strip().lower().split())` — the canonicalisation inside
`_normalize_country_token`, on character lists. -/
def canonList (l : List Char) : List Char :=
  joinSp (pySplit ((stripList l).map Char.toLower))

/-- The `COUNTRY_ALIASES` dictionary, as an association list. -/
def COUNTRY_ALIASES : List (String × String) :=
  [("uk", "united kingdom"),
   ("united kingdom", "united kingdom"),
   ("us", "united states"),
   ("usa", "united states"),
   ("türkiye", "turkey"),
   ("czech republic", "czechia")]

/-- `d.get(k, default)` on an association list. -/
def dictGetD (d : List (String × String)) (k dflt : String) : String :=
  ((d.find? (fun p => p.1 == k)).map Prod.snd).getD dflt

/-- `d.get(k)` on an association list (absent key ↦ `none`). -/
def dictGet (d : List (String × String)) (k : String) : Option String :=
  (d.find? (fun p => p.1 == k)).map Prod.snd

/-- `_normalize_country_token`:
`normalized = " ".join(value.strip().lower().split())`;
`return COUNTRY_ALIASES.get(normalized, normalized)`. -/
def _normalize_country_token (value : String) : String :=
  let normalized : String := ⟨canonList value.data⟩
  dictGetD COUNTRY_ALIASES normalized normalized

/-- `_is_country_level_location`: blank location or blank country token is
`False`; otherwise compare the two normalized tokens. -/
def _is_country_level_location (location country_indeed : String) : Bool :=
  if pyStrip location = "" ∨ pyStrip country_indeed = "" then false
  else _normalize_country_token location == _normalize_country_token country_indeed

/-- The `GLASSDOOR_COUNTRY_TO_CITY` dictionary, as an association list. -/
def GLASSDOOR_COUNTRY_TO_CITY : List (String × String) :=
  [("australia", "Sydney"),
   ("austria", "Vienna"),
   ("belgium", "Brussels"),
   ("brazil", "Sao Paulo"),
   ("canada", "Toronto"),
   ("france", "Paris"),
   ("germany", "Berlin"),
   ("hong kong", "Hong Kong"),
   ("india", "Bengaluru"),
   ("ireland", "Dublin"),
   ("italy", "Milan"),
   ("mexico", "Mexico City"),
   ("netherlands", "Amsterdam"),
   ("new zealand", "Auckland"),
   ("singapore", "Singapore"),
   ("spain", "Madrid"),
   ("switzerland", "Zurich"),
   ("united kingdom", "London"),
   ("united states", "New York"),
   ("vietnam", "Ho Chi Minh City")]

/-- Python `a or b` on strings: `a` unless `a` is the empty string. -/
def pyOrStr (a b : String) : String := if a = "" then b else a

/-- `_glassdoor_city_for_country`:
`country_key = _normalize_country_token(country_indeed or location)`;
`return GLASSDOOR_COUNTRY_TO_CITY.get(country_key)`. -/
def _glassdoor_city_for_country (country_indeed location : String) : Option String :=
  let country_key := _normalize_country_token (pyOrStr country_indeed location)
  dictGet GLASSDOOR_COUNTRY_TO_CITY country_key

/-- Python `raw.split(",")`: split at every comma, keeping empty pieces
(so `"".split(",") == [""]`). -/
def splitCommaAux : List Char → List Char → List (List Char)
  | [], acc => [acc.reverse]
  | c :: cs, acc =>
    if c = ',' then acc.reverse :: splitCommaAux cs [] else splitCommaAux cs (c :: acc)

/-- `_parse_sites`: `[s.strip() for s in raw.split(",") if s.strip()]`. -/
def _parse_sites (raw : String) : List String :=
  (((splitCommaAux raw.data []).map (fun l => pyStrip ⟨l⟩)).filter (fun s => s ≠ ""))

/-! ## Configuration resolver (`_env_str`, `_env_int`, `_env_bool`)

The environment is modelled as the `Option String` that `os.getenv`
returns for the variable in question. -/

/-- `_env_str`: `value if value and value.strip() else default`. -/
def _env_str (value : Option String) (default : String) : String :=
  match value with
  | none => default
  | some v => if v ≠ "" ∧ pyStrip v ≠ "" then v else default

/-- Numeric value of a decimal digit character. -/
def digitVal (c : Char) : Nat := c.toNat - 48

/-- Digit tail of a CPython decimal `int()` literal: digits, with single
underscores allowed only between digits. -/
def pyIntDigits : List Char → Nat → Option Nat
  | [], acc => some acc
  | '_' :: c :: rest, acc =>
    if c.isDigit then pyIntDigits rest (acc * 10 + digitVal c) else none
  | ['_'], _ => none
  | c :: rest, acc =>
    if c.isDigit then pyIntDigits rest (acc * 10 + digitVal c) else none

/-- Unsigned part of a CPython decimal `int()` literal: at least one digit,
then `pyIntDigits`. -/
def pyParseIntCore : List Char → Option Nat
  | [] => none
  | c :: rest => if c.isDigit then pyIntDigits rest (digitVal c) else none

/-- Python `int(s)` on a decimal string: optional surrounding whitespace,
optional sign, then digits (underscore separators allowed between digits);
`none` models the `ValueError`. -/
def pyParseInt (s : String) : Option Int :=
  match stripList s.data with
  | [] => none
  | '+' :: rest => (pyParseIntCore rest).map (fun n => (n : Int))
  | '-' :: rest => (pyParseIntCore rest).map (fun n => -(n : Int))
  | l => (pyParseIntCore l).map (fun n => (n : Int))

/-- `_env_int`: absent or blank value ↦ default; `int(value)` otherwise,
falling back to the default on `ValueError`. -/
def _env_int (value : Option String) (default : Int) : Int :=
  match value with
  | none => default
  | some v =>
    if pyStrip v = "" then default
    else match pyParseInt v with
      | some n => n
      | none => default

/-- `_env_bool`: absent or blank value ↦ default; otherwise membership of
the stripped lower-cased value in the truthy set. -/
def _env_bool (value : Option String) (default : Bool) : Bool :=
  match value with
  | none => default
  | some v =>
    if pyStrip v = "" then default
    else decide ((⟨(stripList v.data).map Char.toLower⟩ : String)
                  ∈ ["1", "true", "yes", "y", "on"])

/-! ## The run model (`main`, lines 115–212)

`main` is modelled as a pure function of the resolved configuration and a
fetch oracle (the external `scrape_jobs` capability, §9 of the spec: an
abstract `fetch(SearchRequest) -> sequence of JobListing`).  Its output is
the ordered trace of observable steps (log lines, progress events, fetch
calls, file writes) plus the aggregated batch and the exit code.  Job
listings are opaque (`Job` is a type parameter); the writers are modelled
by their record counts, `to_csv` with its default header row.  Path
resolution and directory creation (lines 127–133) are configuration
loading, out of the modelled core (spec §1). -/

/-- The keyword arguments `_scrape_for_sites` passes to `scrape_jobs`;
`location` is `none` when the argument was absent or blank
(`if location and location.strip()`). -/
structure ScrapeRequest where
  site_name : List String
  search_term : String
  results_wanted : Int
  hours_old : Int
  country_indeed : String
  linkedin_fetch_description : Bool
  is_remote : Bool
  location : Option String
deriving DecidableEq, Repr

/-- Request construction in `_scrape_for_sites` (the `kwargs` dict). -/
def _scrape_for_sites_req (sites : List String) (search_term : String)
    (location : Option String) (results_wanted hours_old : Int)
    (country_indeed : String)
    (linkedin_fetch_description is_remote : Bool) : ScrapeRequest :=
  { site_name := sites
    search_term := search_term
    results_wanted := results_wanted
    hours_old := hours_old
    country_indeed := country_indeed
    linkedin_fetch_description := linkedin_fetch_description
    is_remote := is_remote
    location := match location with
      | none => none
      | some l => if l ≠ "" ∧ pyStrip l ≠ "" then some l else none }

/-- Payload of one `_emit_progress` call. -/
structure ProgressEvent where
  event : String
  termIndex : Int
  termTotal : Int
  searchTerm : String
  jobsFoundTerm : Option Int
deriving DecidableEq, Repr

/-- One observable step of `main`, in program order. -/
inductive Ev (Job : Type) where
  /-- An `_emit_progress` call (a `JOBOPS_PROGRESS `-prefixed stdout line). -/
  | progress (p : ProgressEvent)
  /-- A `_scrape_for_sites` call and the listings the oracle returned. -/
  | fetchCall (req : ScrapeRequest) (result : List Job)
  /-- A free-form human-readable log line. -/
  | infoLine (line : String)
  /-- `jobs.to_csv(...)`: row count plus the header row (pandas default). -/
  | fileCsv (rows : Nat) (header : Bool)
  /-- `jobs.to_json(..., orient="records")`: one record per row. -/
  | fileJson (rows : Nat)
deriving DecidableEq

/-- The resolved configuration `main` works with (its local variables
after lines 116–125). -/
structure MainConfig where
  sites : List String
  search_term : String
  location : String
  results_wanted : Int
  hours_old : Int
  country_indeed : String
  linkedin_fetch_description : Bool
  is_remote : Bool
  term_index : Int
  term_total : Int
deriving DecidableEq, Repr

/-- The effective location of the glassdoor group (lines 162–175):
start from `location`; when `_is_country_level_location` holds and the
city fallback is truthy, substitute it. -/
def glassdoorEffectiveLocation (location country_indeed : String) : String :=
  if _is_country_level_location location country_indeed then
    match _glassdoor_city_for_country country_indeed location with
    | some city => if city ≠ "" then city else location
    | none => location
  else location

/-- The advisory log lines of the glassdoor branch (lines 163–175). -/
def glassdoorInfoLines (location country_indeed : String) : List String :=
  if _is_country_level_location location country_indeed then
    match _glassdoor_city_for_country country_indeed location with
    | some city =>
      if city ≠ "" then
        ["jobspy: Glassdoor location matched country; using city fallback ("
          ++ city ++ ")"]
      else ["jobspy: Glassdoor location matched country; keeping original location"]
    | none => ["jobspy: Glassdoor location matched country; keeping original location"]
  else []

/-- Result of one `main` invocation. -/
structure RunResult (Job : Type) where
  events : List (Ev Job)
  batch : List Job
  exitCode : Nat
deriving DecidableEq

/-- The `term_start` payload (lines 136–143). -/
def startEvent (cfg : MainConfig) : ProgressEvent :=
  ⟨"term_start", cfg.term_index, cfg.term_total, cfg.search_term, none⟩

/-- The `term_complete` payload (lines 192–200), with the final count. -/
def completeEvent (cfg : MainConfig) (count : Nat) : ProgressEvent :=
  ⟨"term_complete", cfg.term_index, cfg.term_total, cfg.search_term,
    some (count : Int)⟩

/-- `non_glassdoor_sites` (line 145): the generic group. -/
def genGroup (cfg : MainConfig) : List String :=
  cfg.sites.filter (fun s => s ≠ "glassdoor")

/-- The request of the generic-group fetch (lines 148–159). -/
def genReq (cfg : MainConfig) : ScrapeRequest :=
  _scrape_for_sites_req (genGroup cfg) cfg.search_term (some cfg.location)
    cfg.results_wanted cfg.hours_old cfg.country_indeed
    cfg.linkedin_fetch_description cfg.is_remote

/-- The request of the glassdoor-group fetch (lines 176–187). -/
def gdReq (cfg : MainConfig) : ScrapeRequest :=
  _scrape_for_sites_req ["glassdoor"] cfg.search_term
    (some (glassdoorEffectiveLocation cfg.location cfg.country_indeed))
    cfg.results_wanted cfg.hours_old cfg.country_indeed
    cfg.linkedin_fetch_description cfg.is_remote

/-- Observable steps of the generic-group branch (lines 147–159). -/
def genEvents {Job : Type} (fetch : ScrapeRequest → List Job)
    (cfg : MainConfig) : List (Ev Job) :=
  if genGroup cfg ≠ [] then
    [Ev.fetchCall (genReq cfg) (fetch (genReq cfg))]
  else []

/-- Frames appended by the generic-group branch. -/
def genFrames {Job : Type} (fetch : ScrapeRequest → List Job)
    (cfg : MainConfig) : List (List Job) :=
  if genGroup cfg ≠ [] then [fetch (genReq cfg)] else []

/-- Observable steps of the glassdoor branch (lines 161–187). -/
def gdEvents {Job : Type} (fetch : ScrapeRequest → List Job)
    (cfg : MainConfig) : List (Ev Job) :=
  if "glassdoor" ∈ cfg.sites then
    (glassdoorInfoLines cfg.location cfg.country_indeed).map Ev.infoLine
      ++ [Ev.fetchCall (gdReq cfg) (fetch (gdReq cfg))]
  else []

/-- Frames appended by the glassdoor branch. -/
def gdFrames {Job : Type} (fetch : ScrapeRequest → List Job)
    (cfg : MainConfig) : List (List Job) :=
  if "glassdoor" ∈ cfg.sites then [fetch (gdReq cfg)] else []

/-- The body of `main` (lines 135–212): emit `term_start`, dispatch the
non-glassdoor group then the glassdoor group (each only when non-empty),
concatenate the frames (`pd.concat`, or an empty frame when no group ran),
emit `term_complete` with the final count, write both output files,
return 0. -/
def runMain {Job : Type} (fetch : ScrapeRequest → List Job)
    (cfg : MainConfig) : RunResult Job :=
  let jobs := (genFrames fetch cfg ++ gdFrames fetch cfg).flatten
  { events :=
      [Ev.infoLine ("jobspy: Search term: " ++ cfg.search_term),
       Ev.progress (startEvent cfg)]
      ++ genEvents fetch cfg ++ gdEvents fetch cfg
      ++ [Ev.infoLine ("Found " ++ Nat.repr jobs.length ++ " jobs"),
          Ev.progress (completeEvent cfg jobs.length),
          Ev.fileCsv jobs.length true,
          Ev.fileJson jobs.length,
          Ev.infoLine "Wrote CSV", Ev.infoLine "Wrote JSON"]
    batch := jobs
    exitCode := 0 }

/-! ## Trace projections -/

/-- Is an event a fetch call? -/
def isFetchEv {Job : Type} : Ev Job → Bool
  | .fetchCall _ _ => true
  | _ => false

/-- Project a progress event. -/
def evProgress {Job : Type} : Ev Job → Option ProgressEvent
  | .progress p => some p
  | _ => none

/-- Project the site group of a fetch call. -/
def evFetchGroup {Job : Type} : Ev Job → Option (List String)
  | .fetchCall req _ => some req.site_name
  | _ => none

/-- Project the location argument of a fetch call. -/
def evFetchLocation {Job : Type} : Ev Job → Option (Option String)
  | .fetchCall req _ => some req.location
  | _ => none

/-- Project the result of a fetch call. -/
def evFetchResult {Job : Type} : Ev Job → Option (List Job)
  | .fetchCall _ r => some r
  | _ => none

/-- Project a CSV write (row count, header present). -/
def evCsv {Job : Type} : Ev Job → Option (Nat × Bool)
  | .fileCsv n h => some (n, h)
  | _ => none

/-- Project a JSON write (record count). -/
def evJson {Job : Type} : Ev Job → Option Nat
  | .fileJson n => some n
  | _ => none

/-- The progress events of a run, in order. -/
def progressTrace {Job : Type} (r : RunResult Job) : List ProgressEvent :=
  r.events.filterMap evProgress

/-- The site groups fetched by a run, in dispatch order. -/
def fetchedGroups {Job : Type} (r : RunResult Job) : List (List String) :=
  r.events.filterMap evFetchGroup

/-- The location arguments of the fetches of a run, in dispatch order. -/
def fetchedLocations {Job : Type} (r : RunResult Job) : List (Option String) :=
  r.events.filterMap evFetchLocation

/-- The per-group fetch results of a run, in dispatch order. -/
def fetchedResults {Job : Type} (r : RunResult Job) : List (List Job) :=
  r.events.filterMap evFetchResult

/-- The CSV writes of a run. -/
def csvWrites {Job : Type} (r : RunResult Job) : List (Nat × Bool) :=
  r.events.filterMap evCsv

/-- The JSON writes of a run. -/
def jsonWrites {Job : Type} (r : RunResult Job) : List Nat :=
  r.events.filterMap evJson

/-! ## The spec's reference definition of `normalize` (§3, §4.2)

For the refinement claim the spec's wording — "lower-case, collapse
internal whitespace to single spaces, trim, then alias-resolve" — is
embedded independently of the code's `" ".join(value.strip().lower().split())`
and proved extensionally equal to it. -/

/-- Collapse every maximal whitespace run to a single space; the flag says
whether the previous character was whitespace. -/
def collapseWsAux : List Char → Bool → List Char
  | [], _ => []
  | c :: cs, prevWs =>
    if ws c then
      if prevWs then collapseWsAux cs true else ' ' :: collapseWsAux cs true
    else c :: collapseWsAux cs false

/-- Collapse internal whitespace runs to single spaces. -/
def collapseWsSpec (l : List Char) : List Char := collapseWsAux l false

/-- The spec's reference `normalize`: lower-case, collapse whitespace,
trim, then alias-resolve. -/
def normalizeSpec (s : String) : String :=
  let canonical : String := ⟨stripList (collapseWsSpec (s.data.map Char.toLower))⟩
  dictGetD COUNTRY_ALIASES canonical canonical

/-- The spec's scenario configuration: sites `["indeed","glassdoor"]`,
location "United Kingdom", country "UK", all other settings at their
defaults. -/
def cfgScenarioUK : MainConfig :=
  { sites := ["indeed", "glassdoor"]
    search_term := "web developer"
    location := "United Kingdom"
    results_wanted := 200
    hours_old := 72
    country_indeed := "UK"
    linkedin_fetch_description := true
    is_remote := false
    term_index := 1
    term_total := 1 }

/-- The spec's empty-sites scenario configuration (sites list `""`). -/
def cfgEmptySites : MainConfig :=
  { cfgScenarioUK with sites := _parse_sites "" }

/-! ## Lemmas: whitespace and case mapping -/

theorem ws_ofNat_lowercase : ∀ i : Fin 26, ws (Char.ofNat (97 + i.val)) = false := by
  decide

/-- `str.lower` does not change whether a character is whitespace. -/
theorem ws_toLower (c : Char) : ws c.toLower = ws c := by
  by_cases h : ws c = true
  · have h' : ((c = ' ' ∨ c = '\t') ∨ c = '\r') ∨ c = '\n' := by
      simpa [ws, Char.isWhitespace] using h
    rcases h' with ((rfl | rfl) | rfl) | rfl <;> decide
  · have hf : ws c = false := by simpa using h
    rw [hf]
    unfold Char.toLower
    by_cases hc : c.toNat ≥ 65 ∧ c.toNat ≤ 90
    · simp only [hc, and_self, if_true]
      have he : c.toNat + 32 = 97 + (c.toNat - 65) := by omega
      have hlt : c.toNat - 65 < 26 := by omega
      rw [he]
      exact ws_ofNat_lowercase ⟨c.toNat - 65, hlt⟩
    · simp only [hc, if_false]
      exact hf

/-- `str.lower` is idempotent (ASCII model). -/
theorem toLower_toLower (c : Char) : c.toLower.toLower = c.toLower := by
  unfold Char.toLower
  by_cases hc : c.toNat ≥ 65 ∧ c.toNat ≤ 90
  · simp only [hc, and_self, if_true]
    have he : c.toNat + 32 = 97 + (c.toNat - 65) := by omega
    have hlt : c.toNat - 65 < 26 := by omega
    rw [he]
    have : ∀ i : Fin 26,
        (if (Char.ofNat (97 + i.val)).toNat ≥ 65 ∧ (Char.ofNat (97 + i.val)).toNat ≤ 90
         then Char.ofNat ((Char.ofNat (97 + i.val)).toNat + 32)
         else Char.ofNat (97 + i.val)) = Char.ofNat (97 + i.val) := by decide
    exact this ⟨c.toNat - 65, hlt⟩
  · simp [hc]

/-! ## Lemmas: `pySplit` characterisation -/

theorem pySplitAux_shift (cs : List Char) : ∀ acc : List Char, acc ≠ [] →
    pySplitAux cs acc =
      (acc.reverse ++ cs.takeWhile (fun d => !ws d)) ::
        pySplit (cs.dropWhile (fun d => !ws d)) := by
  induction cs with
  | nil =>
    intro acc h
    simp [pySplitAux, h, pySplit]
  | cons c cs ih =>
    intro acc h
    by_cases hc : ws c
    · simp only [pySplitAux, hc, if_true, h, if_false,
        List.takeWhile_cons, Bool.not_eq_true', hc, Bool.not_true,
        List.dropWhile_cons]
      simp [pySplit, pySplitAux, hc]
    · rw [show pySplitAux (c :: cs) acc = pySplitAux cs (c :: acc) by
        simp [pySplitAux, hc]]
      rw [ih (c :: acc) (by simp)]
      simp [List.takeWhile_cons, List.dropWhile_cons, hc]

theorem pySplit_cons_pos {c : Char} {cs : List Char} (h : ws c = true) :
    pySplit (c :: cs) = pySplit cs := by
  simp [pySplit, pySplitAux, h]

theorem pySplit_cons_neg {c : Char} {cs : List Char} (h : ws c = false) :
    pySplit (c :: cs) =
      (c :: cs.takeWhile (fun d => !ws d)) ::
        pySplit (cs.dropWhile (fun d => !ws d)) := by
  rw [show pySplit (c :: cs) = pySplitAux cs [c] by
    simp [pySplit, pySplitAux, h]]
  rw [pySplitAux_shift cs [c] (by simp)]
  simp

theorem pySplit_all_ws {t : List Char} (h : ∀ x ∈ t, ws x = true) :
    pySplit t = [] := by
  induction t with
  | nil => rfl
  | cons c cs ih =>
    rw [pySplit_cons_pos (h c (by simp))]
    exact ih (fun x hx => h x (by simp [hx]))

theorem pySplit_dropWhile_ws (l : List Char) :
    pySplit (l.dropWhile ws) = pySplit l := by
  induction l with
  | nil => rfl
  | cons c cs ih =>
    by_cases hc : ws c = true
    · rw [List.dropWhile_cons_of_pos hc, ih, pySplit_cons_pos hc]
    · rw [List.dropWhile_cons_of_neg (by simp [hc])]

theorem dropWhile_eq_self_of_all {α : Type} {p : α → Bool} {l : List α}
    (h : ∀ x ∈ l, p x = false) : l.dropWhile p = l := by
  cases l with
  | nil => rfl
  | cons a l => exact List.dropWhile_cons_of_neg (by simp [h a (by simp)])

theorem pySplit_append_allws_bounded {t : List Char} (ht : ∀ x ∈ t, ws x = true) :
    ∀ (n : Nat) (u : List Char), u.length ≤ n → pySplit (u ++ t) = pySplit u := by
  intro n
  induction n with
  | zero =>
    intro u hu
    have : u = [] := List.length_eq_zero.mp (Nat.le_zero.mp hu)
    subst this
    simpa using pySplit_all_ws ht
  | succ n ih =>
    intro u hu
    match u with
    | [] => simpa using pySplit_all_ws ht
    | c :: u' =>
      by_cases hc : ws c = true
      · rw [List.cons_append, pySplit_cons_pos hc, pySplit_cons_pos hc]
        exact ih u' (by simpa using Nat.le_of_succ_le_succ hu)
      · have hc' : ws c = false := by simpa using hc
        rw [List.cons_append, pySplit_cons_neg hc', pySplit_cons_neg hc']
        by_cases hd : u'.dropWhile (fun d => !ws d) = []
        · have htk : u'.takeWhile (fun d => !ws d) = u' := by
            have := List.takeWhile_append_dropWhile (fun d => !ws d) u'
            rw [hd] at this
            simpa using this
          have hall : ∀ a ∈ u', (fun d => !ws d) a = true := by
            intro a ha
            rw [← htk] at ha
            simpa using List.mem_takeWhile_imp ha
          rw [List.takeWhile_append_of_pos hall,
              List.dropWhile_append_of_pos hall]
          have htt : t.takeWhile (fun d => !ws d) = [] := by
            cases t with
            | nil => rfl
            | cons a t' =>
              exact List.takeWhile_cons_of_neg (by simp [ht a (by simp)])
          have hdt : t.dropWhile (fun d => !ws d) = t := by
            cases t with
            | nil => rfl
            | cons a t' =>
              exact List.dropWhile_cons_of_neg (by simp [ht a (by simp)])
          rw [htt, hdt, hd, pySplit_all_ws ht]
          simp [pySplit, pySplitAux, htk]
        · have hlen : (u'.takeWhile (fun d => !ws d)).length ≠ u'.length := by
            intro he
            have hsum := congrArg List.length
              (List.takeWhile_append_dropWhile (fun d => !ws d) u')
            rw [List.length_append] at hsum
            have : (u'.dropWhile (fun d => !ws d)).length = 0 := by omega
            exact hd (List.length_eq_zero.mp this)
          rw [List.takeWhile_append, if_neg hlen]
          rw [List.dropWhile_append,
              if_neg (by simpa [List.isEmpty_iff] using hd)]
          have hrec : (u'.dropWhile (fun d => !ws d)).length ≤ n := by
            have h1 : (u'.dropWhile (fun d => !ws d)).length ≤ u'.length :=
              (List.dropWhile_suffix _).length_le
            have h2 : u'.length ≤ n := by simpa using Nat.le_of_succ_le_succ hu
            omega
          rw [ih _ hrec]

theorem pySplit_append_allws {t : List Char} (ht : ∀ x ∈ t, ws x = true)
    (u : List Char) : pySplit (u ++ t) = pySplit u :=
  pySplit_append_allws_bounded ht u.length u (Nat.le_refl _)

theorem pySplit_trimRight (u : List Char) : pySplit (trimRight u) = pySplit u := by
  have hdecomp : u = trimRight u ++ (u.reverse.takeWhile ws).reverse := by
    rw [trimRight, ← List.reverse_append, List.takeWhile_append_dropWhile,
      List.reverse_reverse]
  have ht : ∀ x ∈ (u.reverse.takeWhile ws).reverse, ws x = true := by
    intro x hx
    exact List.mem_takeWhile_imp (List.mem_reverse.mp hx)
  conv_rhs => rw [hdecomp]
  rw [pySplit_append_allws ht]

theorem pySplit_stripList (l : List Char) : pySplit (stripList l) = pySplit l := by
  rw [stripList, pySplit_trimRight, trimLeft, pySplit_dropWhile_ws]

/-! ## Lemmas: collapse/trim characterisation -/

theorem collapseWsAux_true (l : List Char) :
    collapseWsAux l true = collapseWsAux (l.dropWhile ws) false := by
  induction l with
  | nil => rfl
  | cons c cs ih =>
    by_cases hc : ws c = true
    · rw [show collapseWsAux (c :: cs) true = collapseWsAux cs true by
        simp [collapseWsAux, hc]]
      rw [List.dropWhile_cons_of_pos hc, ih]
    · have hc' : ws c = false := by simpa using hc
      rw [List.dropWhile_cons_of_neg (by simp [hc'])]
      simp [collapseWsAux, hc']

theorem collapseSpec_cons_ws {c : Char} {cs : List Char} (h : ws c = true) :
    collapseWsSpec (c :: cs) = ' ' :: collapseWsSpec (cs.dropWhile ws) := by
  simp [collapseWsSpec, collapseWsAux, h, collapseWsAux_true]

theorem collapseSpec_cons_nonws {c : Char} {cs : List Char} (h : ws c = false) :
    collapseWsSpec (c :: cs) = c :: collapseWsSpec cs := by
  simp [collapseWsSpec, collapseWsAux, h]

theorem collapseSpec_nonws_prefix {w : List Char} (hw : ∀ x ∈ w, ws x = false)
    (r : List Char) : collapseWsSpec (w ++ r) = w ++ collapseWsSpec r := by
  induction w with
  | nil => simp
  | cons c w' ih =>
    rw [List.cons_append, collapseSpec_cons_nonws (hw c (by simp))]
    rw [ih (fun x hx => hw x (by simp [hx]))]
    rfl

theorem trimLeft_cons_nonws {c : Char} {l : List Char} (h : ws c = false) :
    trimLeft (c :: l) = c :: l :=
  List.dropWhile_cons_of_neg (by simp [h])

theorem trimRight_all_nonws {l : List Char} (h : ∀ x ∈ l, ws x = false) :
    trimRight l = l := by
  rw [trimRight, dropWhile_eq_self_of_all
    (fun x hx => h x (List.mem_reverse.mp hx)), List.reverse_reverse]

theorem trimRight_append_allws {t : List Char} (ht : ∀ x ∈ t, ws x = true)
    (u : List Char) : trimRight (u ++ t) = trimRight u := by
  rw [trimRight, trimRight, List.reverse_append, List.dropWhile_append]
  rw [if_pos]
  rw [List.isEmpty_iff, List.dropWhile_eq_nil_iff]
  intro x hx
  exact ht x (List.mem_reverse.mp hx)

theorem trimRight_append_of_nonws_mem {v : List Char} {e : Char}
    (he : e ∈ v) (hws : ws e = false) (u : List Char) :
    trimRight (u ++ v) = u ++ trimRight v := by
  have hne : v.reverse.dropWhile ws ≠ [] := by
    rw [Ne, List.dropWhile_eq_nil_iff]
    intro hall
    rw [hall e (List.mem_reverse.mpr he)] at hws
    exact Bool.noConfusion hws
  rw [trimRight, trimRight, List.reverse_append, List.dropWhile_append]
  rw [if_neg (by simpa [List.isEmpty_iff] using hne)]
  rw [List.reverse_append, List.reverse_reverse]

theorem joinSp_cons_ne {x : List Char} {L : List (List Char)} (h : L ≠ []) :
    joinSp (x :: L) = x ++ ' ' :: joinSp L := by
  cases L with
  | nil => exact absurd rfl h
  | cons y L' => rfl

/-- Trim after collapse agrees with split-then-join, the heart of the
`normalize` refinement. -/
theorem stripList_collapse_bounded : ∀ (n : Nat) (m : List Char), m.length ≤ n →
    stripList (collapseWsSpec m) = joinSp (pySplit m) := by
  intro n
  induction n with
  | zero =>
    intro m hm
    have : m = [] := List.length_eq_zero.mp (Nat.le_zero.mp hm)
    subst this
    rfl
  | succ n ih =>
    intro m hm
    match m with
    | [] => rfl
    | c :: m' =>
      have hm' : m'.length ≤ n := by simpa using Nat.le_of_succ_le_succ hm
      by_cases hc : ws c = true
      · rw [collapseSpec_cons_ws hc]
        rw [show stripList (' ' :: collapseWsSpec (m'.dropWhile ws)) =
              stripList (collapseWsSpec (m'.dropWhile ws)) by
          rw [stripList, stripList, trimLeft, trimLeft,
            List.dropWhile_cons_of_pos (by decide)]]
        rw [pySplit_cons_pos hc, ← pySplit_dropWhile_ws m']
        exact ih _ (Nat.le_trans ((List.dropWhile_suffix ws).length_le) hm')
      · have hc' : ws c = false := by simpa using hc
        have hsplit := List.takeWhile_append_dropWhile (fun d => !ws d) m'
        have hw_all : ∀ x ∈ m'.takeWhile (fun d => !ws d), ws x = false := by
          intro x hx
          simpa using List.mem_takeWhile_imp hx
        rw [pySplit_cons_neg hc', collapseSpec_cons_nonws hc']
        rw [show collapseWsSpec m' =
              m'.takeWhile (fun d => !ws d) ++
                collapseWsSpec (m'.dropWhile (fun d => !ws d)) by
          conv_lhs => rw [← hsplit]
          exact collapseSpec_nonws_prefix hw_all _]
        have hrlen : (m'.dropWhile (fun d => !ws d)).length ≤ m'.length :=
          (List.dropWhile_suffix _).length_le
        cases hr : m'.dropWhile (fun d => !ws d) with
        | nil =>
          rw [show collapseWsSpec [] = [] from rfl, List.append_nil]
          rw [show pySplit [] = [] from rfl]
          rw [show joinSp [c :: m'.takeWhile (fun d => !ws d)] =
                c :: m'.takeWhile (fun d => !ws d) from rfl]
          rw [stripList, trimLeft,
            List.dropWhile_cons_of_neg (by simp [hc'])]
          exact trimRight_all_nonws (by
            intro x hx
            rcases List.mem_cons.mp hx with rfl | hx'
            · exact hc'
            · exact hw_all x hx')
        | cons d r' =>
          have hd : ws d = true := by
            have hhead := List.head?_dropWhile_not (fun d => !ws d) m'
            rw [hr] at hhead
            simpa using hhead
          have hr'len : r'.length + 1 ≤ m'.length := by
            have := hrlen
            rw [hr] at this
            simpa using this
          rw [collapseSpec_cons_ws hd, pySplit_cons_pos hd,
            ← pySplit_dropWhile_ws r']
          have hr''len : (r'.dropWhile ws).length ≤ n := by
            have : (r'.dropWhile ws).length ≤ r'.length :=
              (List.dropWhile_suffix ws).length_le
            omega
          cases hr'' : r'.dropWhile ws with
          | nil =>
            rw [show collapseWsSpec [] = [] from rfl]
            rw [show pySplit [] = [] from rfl]
            rw [show joinSp [c :: m'.takeWhile (fun d => !ws d)] =
                  c :: m'.takeWhile (fun d => !ws d) from rfl]
            rw [stripList, trimLeft,
              List.dropWhile_cons_of_neg (by simp [hc'])]
            rw [show (c :: (m'.takeWhile (fun d => !ws d) ++ [' '])) =
                  (c :: m'.takeWhile (fun d => !ws d)) ++ [' '] by simp]
            rw [trimRight_append_allws (by
              intro x hx
              simp at hx
              subst hx
              decide) _]
            exact trimRight_all_nonws (by
              intro x hx
              rcases List.mem_cons.mp hx with rfl | hx'
              · exact hc'
              · exact hw_all x hx')
          | cons e r₃ =>
            have he : ws e = false := by
              have hhead := List.head?_dropWhile_not ws r'
              rw [hr''] at hhead
              simpa using hhead
            have hmemX : e ∈ collapseWsSpec (e :: r₃) := by
              rw [collapseSpec_cons_nonws he]
              simp
            have hXne : pySplit (e :: r₃) ≠ [] := by
              rw [pySplit_cons_neg he]
              simp
            rw [joinSp_cons_ne hXne, stripList, trimLeft,
              List.dropWhile_cons_of_neg (by simp [hc'])]
            rw [show (c :: (m'.takeWhile (fun d => !ws d) ++
                  ' ' :: collapseWsSpec (e :: r₃))) =
                  ((c :: m'.takeWhile (fun d => !ws d)) ++ [' ']) ++
                    collapseWsSpec (e :: r₃) by simp]
            rw [trimRight_append_of_nonws_mem hmemX he _]
            have hIH := ih (e :: r₃) (by
              rw [← hr'']
              exact hr''len)
            rw [show stripList (collapseWsSpec (e :: r₃)) =
                  trimRight (collapseWsSpec (e :: r₃)) by
              rw [stripList, trimLeft, collapseSpec_cons_nonws he,
                List.dropWhile_cons_of_neg (by simp [he]),
                ← collapseSpec_cons_nonws he]] at hIH
            rw [hIH]
            simp

theorem stripList_collapse (m : List Char) :
    stripList (collapseWsSpec m) = joinSp (pySplit m) :=
  stripList_collapse_bounded m.length m (Nat.le_refl _)

/-- Lower-casing commutes with stripping (case mapping preserves
whitespace-ness). -/
theorem map_toLower_stripList (l : List Char) :
    (stripList l).map Char.toLower = stripList (l.map Char.toLower) := by
  have hws : (ws ∘ Char.toLower) = ws := funext ws_toLower
  simp only [stripList, trimLeft, trimRight, List.dropWhile_map, hws,
    ← List.map_reverse]

/-- The code's canonicalisation equals the spec's lower-collapse-trim. -/
theorem canonList_eq_strip_collapse (l : List Char) :
    canonList l = stripList (collapseWsSpec (l.map Char.toLower)) := by
  rw [canonList, map_toLower_stripList, pySplit_stripList, stripList_collapse]

/-! ## Lemmas: split/join roundtrip and idempotence -/

/-- Every word `pySplit` produces is non-empty, whitespace-free, and made
of characters of the input. -/
theorem pySplit_words_wf : ∀ (n : Nat) (u : List Char), u.length ≤ n →
    ∀ w ∈ pySplit u, w ≠ [] ∧ ∀ x ∈ w, ws x = false ∧ x ∈ u := by
  intro n
  induction n with
  | zero =>
    intro u hu
    have : u = [] := List.length_eq_zero.mp (Nat.le_zero.mp hu)
    subst this
    intro w hw
    simp [pySplit, pySplitAux] at hw
  | succ n ih =>
    intro u hu
    match u with
    | [] => intro w hw; simp [pySplit, pySplitAux] at hw
    | c :: u' =>
      have hu' : u'.length ≤ n := by simpa using Nat.le_of_succ_le_succ hu
      by_cases hc : ws c = true
      · rw [pySplit_cons_pos hc]
        intro w hw
        rcases ih u' hu' w hw with ⟨h1, h2⟩
        exact ⟨h1, fun x hx => ⟨(h2 x hx).1, by simp [(h2 x hx).2]⟩⟩
      · have hc' : ws c = false := by simpa using hc
        rw [pySplit_cons_neg hc']
        intro w hw
        rcases List.mem_cons.mp hw with rfl | hw'
        · refine ⟨by simp, ?_⟩
          intro x hx
          rcases List.mem_cons.mp hx with rfl | hx'
          · exact ⟨hc', by simp⟩
          · refine ⟨by simpa using List.mem_takeWhile_imp hx', ?_⟩
            have : x ∈ u' := (List.takeWhile_prefix _).subset hx'
            simp [this]
        · have hlen : (u'.dropWhile (fun d => !ws d)).length ≤ n :=
            Nat.le_trans (List.dropWhile_suffix _).length_le hu'
          rcases ih _ hlen w hw' with ⟨h1, h2⟩
          refine ⟨h1, fun x hx => ⟨(h2 x hx).1, ?_⟩⟩
          have : x ∈ u' := (List.dropWhile_suffix _).subset (h2 x hx).2
          simp [this]

/-- Splitting the joined words recovers the words, for well-formed words. -/
theorem pySplit_joinSp (W : List (List Char))
    (hW : ∀ w ∈ W, w ≠ [] ∧ ∀ x ∈ w, ws x = false) :
    pySplit (joinSp W) = W := by
  induction W with
  | nil => rfl
  | cons w W' ih =>
    rcases hW w (by simp) with ⟨hne, hnws⟩
    match w, hne with
    | c :: w'', _ =>
      have hc : ws c = false := hnws c (by simp)
      have hw'' : ∀ a ∈ w'', (fun d => !ws d) a = true := by
        intro a ha
        simp [hnws a (by simp [ha])]
      cases W' with
      | nil =>
        rw [show joinSp [c :: w''] = c :: w'' from rfl]
        rw [pySplit_cons_neg hc]
        have hdrop : w''.dropWhile (fun d => !ws d) = [] :=
          List.dropWhile_eq_nil_iff.mpr hw''
        have htake : w''.takeWhile (fun d => !ws d) = w'' := by
          have h0 := List.takeWhile_append_dropWhile (fun d => !ws d) w''
          rw [hdrop] at h0
          simpa using h0
        rw [hdrop, htake]
        rfl
      | cons v W'' =>
        rw [joinSp_cons_ne (by simp)]
        rw [List.cons_append, pySplit_cons_neg hc]
        rw [List.takeWhile_append_of_pos hw'',
          List.dropWhile_append_of_pos hw'']
        rw [List.takeWhile_cons_of_neg (by decide),
          List.dropWhile_cons_of_neg (by decide)]
        rw [pySplit_cons_pos (by decide)]
        rw [ih (fun v' hv' => hW v' (by simp [hv']))]
        simp

/-- A character of a joined word list is a word character or the space
separator. -/
theorem mem_joinSp {x : Char} : ∀ {W : List (List Char)},
    x ∈ joinSp W → (∃ w ∈ W, x ∈ w) ∨ x = ' ' := by
  intro W
  induction W with
  | nil => intro h; simp [joinSp] at h
  | cons w W' ih =>
    intro h
    cases W' with
    | nil =>
      rw [show joinSp [w] = w from rfl] at h
      exact Or.inl ⟨w, by simp, h⟩
    | cons v W'' =>
      rw [joinSp_cons_ne (by simp)] at h
      rcases List.mem_append.mp h with hw | hrest
      · exact Or.inl ⟨w, by simp, hw⟩
      · rcases List.mem_cons.mp hrest with rfl | hx
        · exact Or.inr rfl
        · rcases ih hx with ⟨w', hw', hxw'⟩ | hsp
          · exact Or.inl ⟨w', by simp [hw'], hxw'⟩
          · exact Or.inr hsp

theorem map_eq_self_of_fixed {α : Type} {f : α → α} {l : List α}
    (h : ∀ x ∈ l, f x = x) : l.map f = l := by
  induction l with
  | nil => rfl
  | cons a l ih => simp [h a (by simp), ih (fun x hx => h x (by simp [hx]))]

/-- The code's canonicalisation is idempotent. -/
theorem canonList_idem (l : List Char) :
    canonList (canonList l) = canonList l := by
  have hcanon : ∀ m : List Char, canonList m = joinSp (pySplit (m.map Char.toLower)) := by
    intro m
    rw [canonList, map_toLower_stripList, pySplit_stripList]
  set u := l.map Char.toLower with hu
  have hwf := pySplit_words_wf u.length u (Nat.le_refl _)
  have hy_fixed : ∀ x ∈ joinSp (pySplit u), Char.toLower x = x := by
    intro x hx
    rcases mem_joinSp hx with ⟨w, hw, hxw⟩ | rfl
    · have hxu : x ∈ u := ((hwf w hw).2 x hxw).2
      rcases List.mem_map.mp (by rw [hu] at hxu; exact hxu) with ⟨z, _, rfl⟩
      exact toLower_toLower z
    · decide
  rw [hcanon l, hcanon (joinSp (pySplit u))]
  rw [map_eq_self_of_fixed hy_fixed]
  rw [pySplit_joinSp (pySplit u) (fun w hw =>
    ⟨(hwf w hw).1, fun x hx => ((hwf w hw).2 x hx).1⟩)]

/-- Every value of the alias table is a fixed point of
`_normalize_country_token`. -/
theorem alias_values_fixed :
    ∀ p ∈ COUNTRY_ALIASES, _normalize_country_token p.2 = p.2 := by
  decide

/-! ## Lemmas: trace projections ignore log lines -/

theorem filterMap_none_on_infoLines {Job β : Type} (f : Ev Job → Option β)
    (hf : ∀ s, f (Ev.infoLine s) = none) (l : List String) :
    List.filterMap (f ∘ Ev.infoLine) l = [] := by
  induction l with
  | nil => rfl
  | cons a l ih =>
    rw [List.filterMap_cons]
    simp only [Function.comp_apply, hf]
    exact ih

theorem filterMap_fetchResult_info {Job : Type} (l : List String) :
    (List.filterMap (evFetchResult ∘ Ev.infoLine) l : List (List Job)) = [] :=
  filterMap_none_on_infoLines evFetchResult (fun _ => rfl) l

theorem filterMap_fetchGroup_info {Job : Type} (l : List String) :
    (List.filterMap ((evFetchGroup : Ev Job → Option (List String))
      ∘ Ev.infoLine) l) = [] :=
  filterMap_none_on_infoLines evFetchGroup (fun _ => rfl) l

theorem filterMap_fetchLocation_info {Job : Type} (l : List String) :
    (List.filterMap ((evFetchLocation : Ev Job → Option (Option String))
      ∘ Ev.infoLine) l) = [] :=
  filterMap_none_on_infoLines evFetchLocation (fun _ => rfl) l

theorem filterMap_progress_info {Job : Type} (l : List String) :
    (List.filterMap ((evProgress : Ev Job → Option ProgressEvent)
      ∘ Ev.infoLine) l) = [] :=
  filterMap_none_on_infoLines evProgress (fun _ => rfl) l

theorem filterMap_csv_info {Job : Type} (l : List String) :
    (List.filterMap ((evCsv : Ev Job → Option (Nat × Bool))
      ∘ Ev.infoLine) l) = [] :=
  filterMap_none_on_infoLines evCsv (fun _ => rfl) l

theorem filterMap_json_info {Job : Type} (l : List String) :
    (List.filterMap ((evJson : Ev Job → Option Nat) ∘ Ev.infoLine) l) = [] :=
  filterMap_none_on_infoLines evJson (fun _ => rfl) l

/-! ## Claims -/

/-- **C5.** `_normalize_country_token` is a total pure function on every
input string, extensionally equal to the spec's reference definition
(lower-case, collapse internal whitespace to single spaces, trim, then
resolve through the alias table); consequently `normalize "  UK "` equals
`normalize "uk"`, and `normalize "usa"`, `normalize "united states"` and
`normalize "US"` all agree. -/
theorem normalize_equals_reference (s : String) :
    _normalize_country_token s = normalizeSpec s
    ∧ _normalize_country_token "" = normalizeSpec ""
    ∧ _normalize_country_token "  UK " = _normalize_country_token "uk"
    ∧ _normalize_country_token "usa" = _normalize_country_token "united states"
    ∧ _normalize_country_token "united states" = _normalize_country_token "US" := by
  refine ⟨?_, by decide, by decide, by decide, by decide⟩
  simp only [_normalize_country_token, normalizeSpec, canonList_eq_strip_collapse]

/-- **C6.** `_normalize_country_token` is idempotent: normalizing an
already-normalized token yields the same token, for every input string. -/
theorem normalize_idempotent (x : String) :
    _normalize_country_token (_normalize_country_token x) =
      _normalize_country_token x := by
  have hm : _normalize_country_token x =
      dictGetD COUNTRY_ALIASES ⟨canonList x.data⟩ ⟨canonList x.data⟩ := rfl
  rw [hm]
  cases hfind : COUNTRY_ALIASES.find?
      (fun p => p.1 == (⟨canonList x.data⟩ : String)) with
  | some p =>
    have hval : dictGetD COUNTRY_ALIASES ⟨canonList x.data⟩ ⟨canonList x.data⟩
        = p.2 := by
      rw [dictGetD, hfind]
      rfl
    rw [hval]
    exact alias_values_fixed p (List.mem_of_find?_eq_some hfind)
  | none =>
    have hval : dictGetD COUNTRY_ALIASES ⟨canonList x.data⟩ ⟨canonList x.data⟩
        = ⟨canonList x.data⟩ := by
      rw [dictGetD, hfind]
      rfl
    rw [hval]
    have h2 : _normalize_country_token ⟨canonList x.data⟩ =
        dictGetD COUNTRY_ALIASES ⟨canonList (canonList x.data)⟩
          ⟨canonList (canonList x.data)⟩ := rfl
    rw [h2, canonList_idem, dictGetD, hfind]
    rfl

/-- **C7.** `_is_country_level_location l c` is true iff both inputs are
non-blank and their normalizations agree; blank inputs give the defined
no-match result `false`; `("United Kingdom","UK")` is country-level and
`("Manchester","UK")` is not. -/
theorem is_country_level_iff (l c : String) :
    (_is_country_level_location l c = true ↔
      pyStrip l ≠ "" ∧ pyStrip c ≠ "" ∧
        _normalize_country_token l = _normalize_country_token c)
    ∧ (pyStrip l = "" ∨ pyStrip c = "" →
        _is_country_level_location l c = false)
    ∧ _is_country_level_location "United Kingdom" "UK" = true
    ∧ _is_country_level_location "Manchester" "UK" = false := by
  refine ⟨?_, ?_, by decide, by decide⟩
  · unfold _is_country_level_location
    by_cases h1 : pyStrip l = ""
    · simp [h1]
    · by_cases h2 : pyStrip c = ""
      · simp [h1, h2]
      · simp [h1, h2, beq_iff_eq]
  · intro h
    unfold _is_country_level_location
    rw [if_pos h]

theorem is_country_level_iff_witness :
    _is_country_level_location "   " "UK" = false
    ∧ _is_country_level_location "uk" "UK" = true :=
  ⟨(is_country_level_iff "   " "UK").2.1 (Or.inl (by decide)),
   (is_country_level_iff "uk" "UK").1.mpr ⟨by decide, by decide, by decide⟩⟩

/-- **C8.** Integer settings: an absent or blank environment value
resolves to the static default, and an unparseable value silently
resolves to the default; in particular `"abc"` for results wanted
resolves to the default 200. -/
theorem env_int_resolution (v : String) (d : Int) :
    _env_int none d = d
    ∧ (pyStrip v = "" → _env_int (some v) d = d)
    ∧ (pyParseInt v = none → _env_int (some v) d = d)
    ∧ _env_int (some "abc") 200 = 200 := by
  refine ⟨rfl, ?_, ?_, by decide⟩
  · intro h
    simp [_env_int, h]
  · intro h
    by_cases hb : pyStrip v = ""
    · simp [_env_int, hb]
    · simp [_env_int, hb, h]

theorem env_int_resolution_witness :
    _env_int (some "   ") 7 = 7
    ∧ _env_int (some "abc") 200 = 200
    ∧ _env_int (some "12x") 5 = 5 :=
  ⟨(env_int_resolution "   " 7).2.1 (by decide),
   (env_int_resolution "abc" 200).2.2.2,
   (env_int_resolution "12x" 5).2.2.1 (by decide)⟩

/-- **C10.** In `_glassdoor_city_for_country` the location is consulted
only when the country token is the empty string; a whitespace-only
(non-empty) country token is still preferred, normalizes to the empty
key, and yields no mapping for every location. -/
theorem glassdoor_city_blank_country (c l : String) :
    (c ≠ "" → _glassdoor_city_for_country c l =
        dictGet GLASSDOOR_COUNTRY_TO_CITY (_normalize_country_token c))
    ∧ (_glassdoor_city_for_country "" l =
        dictGet GLASSDOOR_COUNTRY_TO_CITY (_normalize_country_token l))
    ∧ (c ≠ "" → pyStrip c = "" → _glassdoor_city_for_country c l = none) := by
  refine ⟨?_, ?_, ?_⟩
  · intro h
    unfold _glassdoor_city_for_country pyOrStr
    simp [h]
  · unfold _glassdoor_city_for_country pyOrStr
    simp
  · intro hne hblank
    unfold _glassdoor_city_for_country pyOrStr
    simp only [hne, if_neg, if_false]
    have hdata : stripList c.data = [] := by
      have h0 := congrArg String.data hblank
      simpa [pyStrip] using h0
    have hcanon : canonList c.data = [] := by
      rw [canonList, hdata]
      rfl
    have hnorm : _normalize_country_token c = "" := by
      show dictGetD COUNTRY_ALIASES ⟨canonList c.data⟩ ⟨canonList c.data⟩ = ""
      rw [hcanon]
      decide
    rw [hnorm]
    decide

/-- **C1.** The aggregated batch is the concatenation of the per-group
fetch results in dispatch order, its size is the sum of the per-group
sizes, and an all-empty (or fetch-free) run yields the empty batch with
exit status 0 — success, not an error. -/
theorem aggregation_concat {Job : Type} (fetch : ScrapeRequest → List Job)
    (cfg : MainConfig) :
    (runMain fetch cfg).batch = (fetchedResults (runMain fetch cfg)).flatten
    ∧ (runMain fetch cfg).batch.length =
        ((fetchedResults (runMain fetch cfg)).map List.length).sum
    ∧ ((∀ g ∈ fetchedResults (runMain fetch cfg), g = []) →
        (runMain fetch cfg).batch = [] ∧ (runMain fetch cfg).exitCode = 0) := by
  by_cases hg : genGroup cfg = [] <;>
    by_cases hd : "glassdoor" ∈ cfg.sites <;>
      refine ⟨?_, ?_, ?_⟩ <;>
        simp [runMain, fetchedResults, evFetchResult, genEvents, gdEvents,
          genFrames, gdFrames, hg, hd, filterMap_fetchResult_info]

theorem aggregation_concat_witness :
    (runMain (fun _ => ([] : List Nat)) cfgScenarioUK).batch = []
    ∧ (runMain (fun _ => ([] : List Nat)) cfgScenarioUK).exitCode = 0 :=
  (aggregation_concat (fun _ => ([] : List Nat)) cfgScenarioUK).2.2
    (by decide)

/-- **C2.** The dispatcher splits the requested site list into the
generic group (all sites other than `"glassdoor"`) and the glassdoor
group (present iff requested); the groups are disjoint, their union is
the requested source set, and the glassdoor group is always dispatched
last. -/
theorem dispatch_partition {Job : Type} (fetch : ScrapeRequest → List Job)
    (cfg : MainConfig) :
    (∀ x, x ∈ cfg.sites ↔
      (x ∈ genGroup cfg
        ∨ x ∈ (if "glassdoor" ∈ cfg.sites then ["glassdoor"] else [])))
    ∧ (∀ x, x ∈ genGroup cfg →
        x ∉ (if "glassdoor" ∈ cfg.sites then ["glassdoor"] else []))
    ∧ fetchedGroups (runMain fetch cfg) =
        (if genGroup cfg ≠ [] then [genGroup cfg] else [])
        ++ (if "glassdoor" ∈ cfg.sites then [["glassdoor"]] else [])
    ∧ ("glassdoor" ∈ cfg.sites →
        (fetchedGroups (runMain fetch cfg)).getLast? = some ["glassdoor"]) := by
  have hfg : fetchedGroups (runMain fetch cfg) =
      (if genGroup cfg ≠ [] then [genGroup cfg] else [])
      ++ (if "glassdoor" ∈ cfg.sites then [["glassdoor"]] else []) := by
    by_cases hg : genGroup cfg = [] <;>
      by_cases hd : "glassdoor" ∈ cfg.sites <;>
        simp [runMain, fetchedGroups, evFetchGroup, genEvents, gdEvents,
          hg, hd, genReq, gdReq, _scrape_for_sites_req]
  refine ⟨?_, ?_, hfg, ?_⟩
  · intro x
    constructor
    · intro hx
      by_cases hxg : x = "glassdoor"
      · subst hxg
        right
        rw [if_pos hx]
        simp
      · left
        exact List.mem_filter.mpr ⟨hx, by simp [hxg]⟩
    · intro hmem
      rcases hmem with hl | hr
      · exact (List.mem_filter.mp hl).1
      · by_cases hd : "glassdoor" ∈ cfg.sites
        · rw [if_pos hd] at hr
          simp at hr
          subst hr
          exact hd
        · rw [if_neg hd] at hr
          simp at hr
  · intro x hx
    rcases List.mem_filter.mp hx with ⟨_, hne⟩
    have hne' : x ≠ "glassdoor" := by simpa using hne
    by_cases hd : "glassdoor" ∈ cfg.sites
    · rw [if_pos hd]
      simpa using hne'
    · rw [if_neg hd]
      simp
  · intro hd
    rw [hfg]
    by_cases hg : genGroup cfg = [] <;> simp [hg, hd]

theorem dispatch_partition_witness :
    "indeed" ∈ cfgScenarioUK.sites
    ∧ "indeed" ∉ (if "glassdoor" ∈ cfgScenarioUK.sites then ["glassdoor"] else [])
    ∧ (fetchedGroups
        (runMain (fun _ => ([] : List Nat)) cfgScenarioUK)).getLast? =
          some ["glassdoor"] :=
  ⟨by decide,
   (dispatch_partition (fun _ => ([] : List Nat)) cfgScenarioUK).2.1 "indeed"
     (by decide),
   (dispatch_partition (fun _ => ([] : List Nat)) cfgScenarioUK).2.2.2
     (by decide)⟩

/-- **C3.** The glassdoor group's effective location is the fallback city
when the location is country-level and a mapping exists, and the original
location otherwise; in the UK scenario the generic fetch keeps
"United Kingdom" while the glassdoor fetch gets "London". -/
theorem glassdoor_effective_location_cases {Job : Type}
    (fetch : ScrapeRequest → List Job) (loc ctry city : String) :
    (_is_country_level_location loc ctry = true →
      _glassdoor_city_for_country ctry loc = some city →
      glassdoorEffectiveLocation loc ctry = city)
    ∧ (_is_country_level_location loc ctry = true →
      _glassdoor_city_for_country ctry loc = none →
      glassdoorEffectiveLocation loc ctry = loc)
    ∧ (_is_country_level_location loc ctry = false →
      glassdoorEffectiveLocation loc ctry = loc)
    ∧ fetchedLocations (runMain fetch cfgScenarioUK) =
        [some "United Kingdom", some "London"] := by
  refine ⟨?_, ?_, ?_, ?_⟩
  · intro h1 h2
    have hvals : ∀ p ∈ GLASSDOOR_COUNTRY_TO_CITY, p.2 ≠ "" := by decide
    have h2' : dictGet GLASSDOOR_COUNTRY_TO_CITY
        (_normalize_country_token (pyOrStr ctry loc)) = some city := h2
    have hcity_ne : city ≠ "" := by
      cases hfind : GLASSDOOR_COUNTRY_TO_CITY.find?
          (fun p => p.1 == _normalize_country_token (pyOrStr ctry loc)) with
      | none =>
        rw [dictGet, hfind] at h2'
        exact absurd h2' (by simp)
      | some p =>
        rw [dictGet, hfind] at h2'
        simp at h2'
        rw [← h2']
        exact hvals p (List.mem_of_find?_eq_some hfind)
    simp [glassdoorEffectiveLocation, h1, h2, hcity_ne]
  · intro h1 h2
    simp [glassdoorEffectiveLocation, h1, h2]
  · intro h1
    simp [glassdoorEffectiveLocation, h1]
  · have h1 : genGroup cfgScenarioUK = ["indeed"] := by decide
    have h2 : "glassdoor" ∈ cfgScenarioUK.sites := by decide
    have h4 : (genReq cfgScenarioUK).location = some "United Kingdom" := by
      decide
    have h5 : (gdReq cfgScenarioUK).location = some "London" := by decide
    simp [runMain, fetchedLocations, evFetchLocation, genEvents, gdEvents,
      h1, h2, h4, h5, filterMap_fetchLocation_info]

theorem glassdoor_effective_location_cases_witness :
    glassdoorEffectiveLocation "United Kingdom" "UK" = "London"
    ∧ glassdoorEffectiveLocation "United Kingdom" "" = "United Kingdom"
    ∧ glassdoorEffectiveLocation "Serbia" "Serbia" = "Serbia"
    ∧ fetchedLocations (runMain (fun _ => ([] : List Nat)) cfgScenarioUK) =
        [some "United Kingdom", some "London"] :=
  ⟨(glassdoor_effective_location_cases (fun _ => ([] : List Nat))
      "United Kingdom" "UK" "London").1 (by decide) (by decide),
   (glassdoor_effective_location_cases (fun _ => ([] : List Nat))
      "United Kingdom" "" "x").2.2.1 (by decide),
   (glassdoor_effective_location_cases (fun _ => ([] : List Nat))
      "Serbia" "Serbia" "x").2.1 (by decide) (by decide),
   (glassdoor_effective_location_cases (fun _ => ([] : List Nat))
      "x" "x" "x").2.2.2⟩

/-- **C4.** Every run emits exactly two progress events, `term_start`
(with termIndex, termTotal, searchTerm) before any fetch and
`term_complete` (same fields plus jobsFoundTerm) after all fetches, with
jobsFoundTerm equal to the final batch size. -/
theorem progress_protocol {Job : Type} (fetch : ScrapeRequest → List Job)
    (cfg : MainConfig) :
    progressTrace (runMain fetch cfg) =
      [startEvent cfg, completeEvent cfg (runMain fetch cfg).batch.length]
    ∧ ∃ a b c : List (Ev Job),
        (runMain fetch cfg).events =
          a ++ Ev.progress (startEvent cfg) ::
            (b ++ Ev.progress
              (completeEvent cfg (runMain fetch cfg).batch.length) :: c)
        ∧ (∀ e ∈ a, evProgress e = none ∧ isFetchEv e = false)
        ∧ (∀ e ∈ b, evProgress e = none)
        ∧ (∀ e ∈ c, evProgress e = none ∧ isFetchEv e = false) := by
  have hbgen : ∀ e ∈ (genEvents fetch cfg : List (Ev Job)),
      evProgress e = none := by
    intro e he
    rw [genEvents] at he
    split at he
    · simp at he
      subst he
      rfl
    · simp at he
  have hbgd : ∀ e ∈ (gdEvents fetch cfg : List (Ev Job)),
      evProgress e = none := by
    intro e he
    rw [gdEvents] at he
    split at he
    · rcases List.mem_append.mp he with hm | hf
      · rcases List.mem_map.mp hm with ⟨s, _, rfl⟩
        rfl
      · simp at hf
        subst hf
        rfl
    · simp at he
  have hnil1 : List.filterMap evProgress (genEvents fetch cfg) = [] :=
    List.filterMap_eq_nil_iff.mpr hbgen
  have hnil2 : List.filterMap evProgress (gdEvents fetch cfg) = [] :=
    List.filterMap_eq_nil_iff.mpr hbgd
  constructor
  · simp [runMain, progressTrace, evProgress, List.filterMap_append,
      hnil1, hnil2]
  · refine ⟨[Ev.infoLine ("jobspy: Search term: " ++ cfg.search_term)],
      genEvents fetch cfg ++ gdEvents fetch cfg
        ++ [Ev.infoLine ("Found " ++
              Nat.repr (runMain fetch cfg).batch.length ++ " jobs")],
      [Ev.fileCsv (runMain fetch cfg).batch.length true,
       Ev.fileJson (runMain fetch cfg).batch.length,
       Ev.infoLine "Wrote CSV", Ev.infoLine "Wrote JSON"], ?_, ?_, ?_, ?_⟩
    · simp [runMain]
    · intro e he
      simp at he
      subst he
      exact ⟨rfl, rfl⟩
    · intro e he
      rcases List.mem_append.mp he with hgen | hrest
      · rcases List.mem_append.mp hgen with h | h
        · exact hbgen e h
        · exact hbgd e h
      · simp at hrest
        subst hrest
        rfl
    · intro e he
      simp at he
      rcases he with rfl | rfl | rfl | rfl <;> exact ⟨rfl, rfl⟩

/-- **C9.** An empty requested site list gives two empty groups, zero
fetch calls, an empty batch, both output files still written with zero
records (the CSV with its header row), and exit status 0. -/
theorem empty_sites_run {Job : Type} (fetch : ScrapeRequest → List Job)
    (cfg : MainConfig) :
    _parse_sites "" = []
    ∧ (cfg.sites = [] →
        genGroup cfg = []
        ∧ "glassdoor" ∉ cfg.sites
        ∧ fetchedGroups (runMain fetch cfg) = []
        ∧ (runMain fetch cfg).batch = []
        ∧ csvWrites (runMain fetch cfg) = [(0, true)]
        ∧ jsonWrites (runMain fetch cfg) = [0]
        ∧ (runMain fetch cfg).exitCode = 0) := by
  refine ⟨by decide, ?_⟩
  intro h
  have hg : genGroup cfg = [] := by
    rw [genGroup, h]
    rfl
  have hd : "glassdoor" ∉ cfg.sites := by
    rw [h]
    simp
  refine ⟨hg, hd, ?_, ?_, ?_, ?_, rfl⟩
  all_goals
    simp [runMain, fetchedGroups, csvWrites, jsonWrites, evFetchGroup,
      evCsv, evJson, evProgress, genEvents, gdEvents, genFrames, gdFrames,
      hg, hd]

theorem empty_sites_run_witness :
    (runMain (fun _ => ([] : List Nat)) cfgEmptySites).batch = []
    ∧ csvWrites (runMain (fun _ => ([] : List Nat)) cfgEmptySites) = [(0, true)]
    ∧ (runMain (fun _ => ([] : List Nat)) cfgEmptySites).exitCode = 0 := by
  rcases (empty_sites_run (fun _ => ([] : List Nat)) cfgEmptySites).2
      (by decide) with ⟨-, -, -, hb, hc, -, he⟩
  exact ⟨hb, hc, he⟩

theorem glassdoor_city_blank_country_witness :
    _glassdoor_city_for_country " " "United Kingdom" = none
    ∧ _glassdoor_city_for_country "" "United Kingdom" = some "London"
    ∧ _glassdoor_city_for_country "UK" "x" = some "London" :=
  ⟨(glassdoor_city_blank_country " " "United Kingdom").2.2
      (by decide) (by decide),
   ((glassdoor_city_blank_country "x" "United Kingdom").2.1).trans (by decide),
   (((glassdoor_city_blank_country "UK" "x").1) (by decide)).trans (by decide)⟩

end JobOps
